import Mathlib

/-!
Verification development for the newspaper4k acquisition-and-resolution core
(`newspaper/article.py` and `newspaper/extractors/content_extractor.py`).

The Python source is shallowly embedded below.  External collaborators
(lxml tree queries, `dateutil` date parsing, the network layer) are
abstracted as function parameters or pre-extracted inputs, matching the
spec's §6 interface boundary.  Strings are modelled over ASCII (Python's
`\w`, `\d`, `str.lower`, `str.strip` are Unicode-aware; every input used in
the theorems below is ASCII, where the two semantics agree).
-/

namespace Newspaper

/-! ## Python string primitives -/

/-- The default whitespace characters recognised by Python's `str.strip`
(ASCII subset). -/
def isPySpace (c : Char) : Bool :=
  c = ' ' || c = Char.ofNat 9 || c = Char.ofNat 10 || c = Char.ofNat 13 ||
  c = Char.ofNat 11 || c = Char.ofNat 12

/-- ASCII model of Python's per-character `str.lower`. -/
def pyLowerChar : Char → Char
  | 'A' => 'a' | 'B' => 'b' | 'C' => 'c' | 'D' => 'd' | 'E' => 'e' | 'F' => 'f'
  | 'G' => 'g' | 'H' => 'h' | 'I' => 'i' | 'J' => 'j' | 'K' => 'k' | 'L' => 'l'
  | 'M' => 'm' | 'N' => 'n' | 'O' => 'o' | 'P' => 'p' | 'Q' => 'q' | 'R' => 'r'
  | 'S' => 's' | 'T' => 't' | 'U' => 'u' | 'V' => 'v' | 'W' => 'w' | 'X' => 'x'
  | 'Y' => 'y' | 'Z' => 'z'
  | c => c

/-- Model of `str.strip()` on a character list: drop leading and trailing whitespace. -/
def pyStripL (l : List Char) : List Char :=
  (((l.dropWhile isPySpace).reverse).dropWhile isPySpace).reverse

/-- Model of `str.strip()`. -/
def pyStrip (s : String) : String := String.mk (pyStripL s.toList)

/-- Model of `str.lower()` (ASCII model). -/
def pyLower (s : String) : String := String.mk (s.toList.map pyLowerChar)

/-- Split a character list at every character satisfying `p`
(`re.split` with a single-character class: empty pieces are kept). -/
def splitOnPred (p : Char → Bool) (l : List Char) : List (List Char) :=
  l.foldr
    (fun c acc =>
      if p c then [] :: acc
      else
        match acc with
        | g :: gs => (c :: g) :: gs
        | [] => [[c]])
    [[]]

/-- Fuelled worker for `splitOnSep`; `fuel` bounds the scan so the
recursion is structural (it is always called with `fuel = l.length`,
which is sufficient). -/
def splitSepGo (sep : List Char) : Nat → List Char → List Char → List (List Char)
  | 0, l, cur => [cur.reverse ++ l]
  | fuel + 1, l, cur =>
    match l with
    | [] => [cur.reverse]
    | c :: rest =>
      if sep.isPrefixOf (c :: rest) then
        cur.reverse :: splitSepGo sep fuel (List.drop sep.length (c :: rest)) []
      else
        splitSepGo sep fuel rest (c :: cur)

/-- Split on a literal (non-empty) separator string, left to right,
non-overlapping — the semantics shared by `str.split(sep)` and
`re.split` on an escaped literal. -/
def splitOnSep (sep l : List Char) : List (List Char) :=
  if sep = [] then [l] else splitSepGo sep l.length l []

/-- Model of `str.replace(pat, repl)` via split-and-join. -/
def replaceSub (pat repl : String) (s : String) : String :=
  String.intercalate repl ((splitOnSep pat.toList s.toList).map String.mk)

/-- Boolean substring containment (Python's `pat in s` on strings). -/
def containsSub (pat : List Char) : List Char → Bool
  | [] => pat.isEmpty
  | c :: rest => pat.isPrefixOf (c :: rest) || containsSub pat rest

/-- Model of `str.isdigit()` (ASCII model): non-empty and all digits. -/
def pyIsdigit (s : String) : Bool :=
  !s.toList.isEmpty && s.toList.all Char.isDigit

/-- Model of `int(s)` for a digit string. -/
def strToInt (s : String) : Int :=
  Int.ofNat (s.toList.foldl (fun n c => n * 10 + (c.toNat - 48)) 0)

/-- Truthiness of an optional string (Python: `None` and `""` are falsy). -/
def truthyOpt : Option String → Bool
  | none => false
  | some s => s ≠ ""

/-- Python's `a or b` on optional strings. -/
def pyOr (a b : Option String) : Option String :=
  if truthyOpt a then a else b

/-! ## Stable descending sort (Python `list.sort(key=…, reverse=True)`)

Python's sort is stable; a stable descending sort is the unique
permutation that is sorted by the key in descending order and keeps
equal-key elements in their original relative order.  Insertion sort with
the comparison below realises it. -/

/-- Insert `x` before the first element whose key is `≤ key x`
(elements with strictly larger keys stay in front; equal keys keep the
earlier, i.e. already-inserted-from-the-right, element after `x`). -/
def insertDescBy {α : Type} (key : α → Nat) (x : α) : List α → List α
  | [] => [x]
  | y :: ys => if key y ≤ key x then x :: y :: ys else y :: insertDescBy key x ys

/-- Stable sort, descending by `key`. -/
def stableSortDescBy {α : Type} (key : α → Nat) (l : List α) : List α :=
  l.foldr (insertDescBy key) []

/-- First element achieving the maximal key (the spec's tie-break rule:
highest score, ties broken by original order). -/
def firstMaxBy {α : Type} (key : α → Nat) : List α → Option α
  | [] => none
  | x :: xs =>
    match firstMaxBy key xs with
    | none => some x
    | some y => if key x < key y then some y else some x

theorem head?_insertDescBy {α : Type} (key : α → Nat) (x : α) (l : List α) :
    (insertDescBy key x l).head? =
      some (match l.head? with
            | none => x
            | some y => if key y ≤ key x then x else y) := by
  cases l with
  | nil => rfl
  | cons y ys =>
    simp only [insertDescBy, List.head?_cons]
    split <;> simp

theorem firstMaxBy_ne_none {α : Type} (key : α → Nat) (x : α) (xs : List α) :
    firstMaxBy key (x :: xs) ≠ none := by
  simp only [firstMaxBy]
  cases firstMaxBy key xs with
  | none => simp
  | some y => by_cases h : key x < key y <;> simp [h]

theorem head?_stableSortDescBy {α : Type} (key : α → Nat) (l : List α) :
    (stableSortDescBy key l).head? = firstMaxBy key l := by
  induction l with
  | nil => rfl
  | cons a l ih =>
    show (insertDescBy key a (stableSortDescBy key l)).head? = firstMaxBy key (a :: l)
    rw [head?_insertDescBy, ih]
    cases h : firstMaxBy key l with
    | none => simp [firstMaxBy, h]
    | some y =>
      simp only [firstMaxBy, h]
      rcases le_or_lt (key y) (key a) with hle | hlt
      · rw [if_pos hle, if_neg (by omega)]
      · rw [if_neg (by omega), if_pos hlt]

theorem firstMaxBy_spec {α : Type} (key : α → Nat) :
    ∀ (l : List α) (p : α), firstMaxBy key l = some p →
      p ∈ l ∧ (∀ q ∈ l, key q ≤ key p) ∧
      ∃ i, l[i]? = some p ∧ ∀ q ∈ l.take i, key q < key p := by
  intro l
  induction l with
  | nil => intro p h; simp [firstMaxBy] at h
  | cons a t ih =>
    intro p h
    cases ht : firstMaxBy key t with
    | none =>
      simp only [firstMaxBy, ht, Option.some.injEq] at h
      cases t with
      | nil =>
        subst h
        refine ⟨List.mem_singleton.mpr rfl, ?_, 0, by simp, by simp⟩
        intro q hq
        rw [List.mem_singleton] at hq
        subst hq; exact Nat.le_refl _
      | cons b t2 => exact absurd ht (firstMaxBy_ne_none key b t2)
    | some y =>
      simp only [firstMaxBy, ht] at h
      obtain ⟨hymem, hymax, j, hj, hjlt⟩ := ih y ht
      by_cases hlt : key a < key y
      · rw [if_pos hlt, Option.some.injEq] at h
        subst h
        refine ⟨List.mem_cons_of_mem _ hymem, ?_, j + 1, ?_, ?_⟩
        · intro q hq
          rcases List.mem_cons.mp hq with hq | hq
          · subst hq; exact Nat.le_of_lt hlt
          · exact hymax q hq
        · simpa using hj
        · intro q hq
          rw [List.take_succ_cons] at hq
          rcases List.mem_cons.mp hq with hq | hq
          · subst hq; exact hlt
          · exact hjlt q hq
      · rw [if_neg hlt, Option.some.injEq] at h
        subst h
        refine ⟨List.mem_cons_self _ _, ?_, 0, by simp, by simp⟩
        intro q hq
        rcases List.mem_cons.mp hq with hq | hq
        · subst hq; exact Nat.le_refl _
        · exact Nat.le_trans (hymax q hq) (Nat.le_of_not_lt hlt)

/-! ## C9: lifecycle guards (`Article.throw_if_not_downloaded_verbose`,
`Article.throw_if_not_parsed_verbose`, used by `parse()` and `nlp()`) -/

/-- Model of `ArticleDownloadState` from `article.py`. -/
inductive ADState where
  | notStarted
  | failedResponse
  | success
  deriving DecidableEq

/-- The slice of `Article` state consulted by the lifecycle guards. -/
structure GuardArticle where
  download_state : ADState
  download_exception_msg : String
  url : String
  is_parsed : Bool

/-- Model of `Article.throw_if_not_downloaded_verbose`: raising is modelled as
`Except.error` carrying the exception message. -/
def throw_if_not_downloaded_verbose (a : GuardArticle) : Except String Unit :=
  if a.download_state = ADState.notStarted then
    Except.error "You must `download()` an article first!"
  else if a.download_state = ADState.failedResponse then
    Except.error ("Article `download()` failed with " ++ a.download_exception_msg
      ++ " on URL " ++ a.url)
  else Except.ok ()

/-- Model of `Article.throw_if_not_parsed_verbose`. -/
def throw_if_not_parsed_verbose (a : GuardArticle) : Except String Unit :=
  if a.is_parsed then Except.ok ()
  else Except.error "You must `parse()` an article first!"

/-- The guard executed at the top of `Article.parse()`. -/
def parse_guard (a : GuardArticle) : Except String Unit :=
  throw_if_not_downloaded_verbose a

/-- The guards executed at the top of `Article.nlp()`, in source order. -/
def nlp_guard (a : GuardArticle) : Except String Unit := do
  throw_if_not_downloaded_verbose a
  throw_if_not_parsed_verbose a

theorem string_toList_append (a b : String) :
    (a ++ b).toList = a.toList ++ b.toList := by
  cases a; cases b; rfl

theorem isPrefixOf_append_right {pat l t : List Char}
    (h : pat.isPrefixOf l = true) : pat.isPrefixOf (l ++ t) = true := by
  induction pat generalizing l with
  | nil => simp [List.isPrefixOf]
  | cons p ps ih =>
    cases l with
    | nil => simp [List.isPrefixOf] at h
    | cons b bs =>
      simp only [List.cons_append, List.isPrefixOf, Bool.and_eq_true] at h ⊢
      exact ⟨h.1, ih h.2⟩

theorem containsSub_append_right {pat l t : List Char}
    (h : containsSub pat l = true) : containsSub pat (l ++ t) = true := by
  induction l with
  | nil =>
    simp only [containsSub] at h
    cases pat with
    | nil =>
      cases t with
      | nil => simp [containsSub]
      | cons c cs => simp [containsSub, List.isPrefixOf]
    | cons p ps => simp at h
  | cons c rest ih =>
    simp only [containsSub, Bool.or_eq_true] at h
    rcases h with h | h
    · have := isPrefixOf_append_right (t := t) h
      simp only [List.cons_append] at this ⊢
      simp [containsSub, this]
    · simp only [List.cons_append, containsSub, Bool.or_eq_true]
      exact Or.inr (ih h)

/-- C9: calling `parse()` with a download that never started or failed, and
calling `nlp()` before a successful `parse()`, always surface an
`ArticleException` whose message names the missing step (`download()` or
`parse()`); neither method proceeds silently. -/
theorem c9_guard_errors (a : GuardArticle) :
    (a.download_state ≠ ADState.success →
      ∃ m, parse_guard a = Except.error m ∧
        containsSub "download()".toList m.toList = true) ∧
    (¬(a.download_state = ADState.success ∧ a.is_parsed = true) →
      ∃ m, nlp_guard a = Except.error m ∧
        (containsSub "download()".toList m.toList ||
         containsSub "parse()".toList m.toList) = true) := by
  have hfail : ∀ msg url : String,
      containsSub "download()".toList
        ("Article `download()` failed with " ++ msg ++ " on URL " ++ url).toList = true := by
    intro msg url
    rw [string_toList_append, string_toList_append, string_toList_append]
    apply containsSub_append_right
    apply containsSub_append_right
    apply containsSub_append_right
    decide
  constructor
  · intro h
    cases hs : a.download_state with
    | notStarted =>
      exact ⟨"You must `download()` an article first!",
        by simp [parse_guard, throw_if_not_downloaded_verbose, hs], by decide⟩
    | failedResponse =>
      exact ⟨"Article `download()` failed with " ++ a.download_exception_msg
          ++ " on URL " ++ a.url,
        by simp [parse_guard, throw_if_not_downloaded_verbose, hs],
        hfail a.download_exception_msg a.url⟩
    | success => exact absurd hs h
  · intro h
    cases hs : a.download_state with
    | notStarted =>
      refine ⟨"You must `download()` an article first!", ?_, by decide⟩
      simp [nlp_guard, throw_if_not_downloaded_verbose, hs, Bind.bind, Except.bind]
    | failedResponse =>
      refine ⟨"Article `download()` failed with " ++ a.download_exception_msg
          ++ " on URL " ++ a.url, ?_, ?_⟩
      · simp [nlp_guard, throw_if_not_downloaded_verbose, hs, Bind.bind, Except.bind]
      · rw [Bool.or_eq_true]
        exact Or.inl (hfail a.download_exception_msg a.url)
    | success =>
      have hp : a.is_parsed = false := by
        cases hp : a.is_parsed
        · rfl
        · exact absurd ⟨hs, hp⟩ h
      refine ⟨"You must `parse()` an article first!", ?_, by decide⟩
      simp [nlp_guard, throw_if_not_downloaded_verbose, throw_if_not_parsed_verbose,
        hs, hp, Bind.bind, Except.bind]

/-- Witness for C9 at a concrete article state. -/
theorem c9_guard_errors_witness :
    (GuardArticle.mk ADState.notStarted "None" "http://example.com" false).download_state
        ≠ ADState.success ∧
    ∃ m, parse_guard (GuardArticle.mk ADState.notStarted "None" "http://example.com" false)
        = Except.error m ∧ containsSub "download()".toList m.toList = true :=
  ⟨by decide,
   (c9_guard_errors (GuardArticle.mk ADState.notStarted "None" "http://example.com" false)).1
     (by decide)⟩

/-! ## C1: `ContentExtractor.get_publishing_date`

Dates are modelled as `Int` day numbers (the code compares candidates via
`datetime.date` subtraction in days).  The external pieces — the
`urls.STRICT_DATE_REGEX` match on the URL plus `dateutil` parsing, the
lxml query for `application/ld+json` script tags, and the
`PUBLISH_DATE_TAGS` table from `extractors/defines.py` (not in `src/`) —
are abstracted as pre-parsed inputs, per the spec's external-collaborator
boundary: the optional URL-derived date, the list of JSON-LD script tags
(each either a Yoast graph with its parsed `datePublished` entries, or
some other JSON-LD whose `datePublished` is recovered by the raw-text
regex), and the list of matched known meta tags. -/

/-- A matched known meta tag: the date parsed from its content attribute
(`None` when unparseable) and whether the tag's `name` attribute exactly
equals the known tag's expected value. -/
structure MetaDateTag where
  date : Option Int
  nameMatches : Bool

/-- A `<script type="application/ld+json">` tag, as consumed by
`get_publishing_date`. -/
inductive LdScript where
  /-- A `yoast-schema-graph` block: the parsed `datePublished` of each
  `@graph` item (parse failures are `none`). -/
  | yoast : List (Option Int) → LdScript
  /-- Any other JSON-LD block: the date recovered by the
  `datePublished` raw-text regex, if any. -/
  | other : Option Int → LdScript

/-- The score assigned to a known meta tag candidate
(`content_extractor.py` lines 239-246): base 6, +2 for an exact `name`
attribute match, −2 for a future date, −1 for a date more than 25 years
old. -/
def metaScore (now d : Int) (nameMatches : Bool) : Nat :=
  let score := 6
  let score := if nameMatches then score + 2 else score
  let days_diff : Int := now - d
  if days_diff < 0 then score - 2
  else if days_diff > 25 * 365 then score - 1
  else score

/-- Model of `date_matches` as accumulated by `get_publishing_date`, in source
order: URL candidate (score 10), then JSON-LD candidates (10 via the
parsed Yoast path, 9 via the regex fallback), then known meta tags. -/
def collectDateMatches (now : Int) (urlDate : Option Int)
    (scripts : List LdScript) (metaTags : List MetaDateTag) :
    List (Int × Nat) :=
  (match urlDate with
   | some d => [(d, 10)]
   | none => []) ++
  (scripts.map (fun sc =>
    match sc with
    | LdScript.yoast ds => (ds.filterMap id).map (fun d => (d, 10))
    | LdScript.other d =>
      match d with
      | some d => [(d, 9)]
      | none => [])).flatten ++
  metaTags.filterMap (fun t =>
    t.date.map (fun d => (d, metaScore now d t.nameMatches)))

/-- Model of `ContentExtractor.get_publishing_date`: sort the candidates by score,
descending (Python's sort is stable), and return the first one. -/
def get_publishing_date (now : Int) (urlDate : Option Int)
    (scripts : List LdScript) (metaTags : List MetaDateTag) : Option Int :=
  ((stableSortDescBy Prod.snd
      (collectDateMatches now urlDate scripts metaTags)).head?).map Prod.fst

/-- C1: `get_publishing_date` returns the first candidate achieving the
maximal score (highest score wins, ties broken by source collection
order); the meta-tag scoring is base 6, +2 on exact name match, −2 for
future dates, −1 beyond 25 years; and on the spec's concrete example — a
URL date (2023-05-10, modelled as day 19487 with `now` = day 20000)
against a future `article:published_time` meta tag (2099-01-01, day
47100) — the URL-derived date wins with score 10 against the
future-penalised meta score 4. -/
theorem c1_publishing_date_selection :
    (∀ (now : Int) (urlDate : Option Int) (scripts : List LdScript)
        (metaTags : List MetaDateTag),
      get_publishing_date now urlDate scripts metaTags
        = (firstMaxBy Prod.snd
            (collectDateMatches now urlDate scripts metaTags)).map Prod.fst) ∧
    (∀ (l : List (Int × Nat)) (p : Int × Nat), firstMaxBy Prod.snd l = some p →
      p ∈ l ∧ (∀ q ∈ l, q.2 ≤ p.2) ∧
      ∃ i, l[i]? = some p ∧ ∀ q ∈ l.take i, q.2 < p.2) ∧
    collectDateMatches 20000 (some 19487) [] [MetaDateTag.mk (some 47100) false]
      = [(19487, 10), (47100, 4)] ∧
    get_publishing_date 20000 (some 19487) [] [MetaDateTag.mk (some 47100) false]
      = some 19487 := by
  refine ⟨?_, ?_, by decide, by decide⟩
  · intro now urlDate scripts metaTags
    unfold get_publishing_date
    rw [head?_stableSortDescBy]
  · intro l p h
    exact firstMaxBy_spec Prod.snd l p h

/-- Witness for C1's tie-break clause at a concrete candidate list. -/
theorem c1_publishing_date_selection_witness :
    firstMaxBy Prod.snd [((19487 : Int), 10), ((47100 : Int), 4)] = some (19487, 10) ∧
    ((19487 : Int), 10) ∈ [((19487 : Int), 10), ((47100 : Int), 4)] ∧
    (∀ q ∈ [((19487 : Int), 10), ((47100 : Int), 4)], q.2 ≤ 10) ∧
    ∃ i, [((19487 : Int), 10), ((47100 : Int), 4)][i]? = some (19487, 10) ∧
      ∀ q ∈ [((19487 : Int), 10), ((47100 : Int), 4)].take i, q.2 < 10 := by
  have h := c1_publishing_date_selection.2.1
    [((19487 : Int), 10), ((47100 : Int), 4)] (19487, 10) (by decide)
  exact ⟨by decide, h.1, h.2.1, h.2.2⟩

/-! ## C2 / C7: `Article.download`

The external collaborators are abstracted as functions in `DlEnv`:
`utils.extract_meta_refresh` (repository code not under `src/`; modelled
from the spec as "scans for an HTML meta http-equiv refresh directive",
i.e. an arbitrary `String → Option String`), `network.get_html`,
`Article._parse_scheme_file/_parse_scheme_http` for the initial fetch, the
lxml xpath lookup of the first read-more node carrying an `href`, and
`urls.prepare_url`.  The second component of `download`'s result counts
the number of meta-refresh hops taken (i.e. recursive re-fetches). -/

/-- The configuration fields consulted by `download`. -/
structure DlConfig where
  follow_meta_refresh : Bool
  read_more_link : String

/-- External collaborators of `download`. -/
structure DlEnv where
  /-- Result of the initial file/http fetch (`None` = failure recorded). -/
  initialFetch : Option String
  /-- Modelled from the spec: `utils.extract_meta_refresh` (not in
  `src/`) — the meta-refresh target found in the html, if any. -/
  metaRefreshUrl : String → Option String
  /-- Model of `network.get_html` (never fails; returns possibly-empty html). -/
  getHtml : String → String
  /-- The `href` of the first node matching the read-more xpath that has
  a truthy `href`, if any. -/
  readMoreHref : String → Option String
  /-- Model of `urls.prepare_url new_url self.url`. -/
  prepareUrl : String → String → String
  /-- Model of `Article._parse_scheme_http` on the read-more target. -/
  fetchHttp : String → Option String

/-- The `Article` fields touched by `download`. -/
structure ArtState where
  url : String
  html : String
  download_state : ADState
  title : String
  deriving DecidableEq

/-- Model of `Article.set_html`: only a truthy html is stored, and storing it marks
the download successful. -/
def art_set_html (st : ArtState) (html : String) : ArtState :=
  if html ≠ "" then { st with html := html, download_state := ADState.success }
  else st

/-- Model of `Article.set_title` (the `MAX_TITLE` truncation is configuration
handled outside the modelled slice). -/
def art_set_title (st : ArtState) (t : Option String) : ArtState :=
  match t with
  | some s => if s ≠ "" then { st with title := s } else st
  | none => st

/-- The read-more block of `download` (lines 401-428): follow the first
matching link's href; on fetch failure keep the original html and url. -/
def apply_read_more (cfg : DlConfig) (env : DlEnv) (st : ArtState)
    (html : String) (ignore_read_more : Bool) : ArtState × String :=
  if ignore_read_more = false ∧ cfg.read_more_link ≠ "" then
    match env.readMoreHref html with
    | some href =>
      let new_url := env.prepareUrl href st.url
      match env.fetchHttp new_url with
      | some h2 => ({ st with url := new_url }, h2)
      | none => (st, html)
    | none => (st, html)
  else (st, html)

/-- The tail of `download` after the meta-refresh branch: read-more
resolution, then `set_html`, then `set_title`. -/
def finish_download (cfg : DlConfig) (env : DlEnv) (st : ArtState)
    (html : String) (title : Option String) (ignore_read_more : Bool) :
    ArtState :=
  art_set_title
    (art_set_html (apply_read_more cfg env st html ignore_read_more).1
      (apply_read_more cfg env st html ignore_read_more).2)
    title

/-- The body of `Article.download` once the html is in hand (the source
reaches this point either from a successful fetch or from a supplied
`input_html`; every recursive call in the source passes
`input_html=some …`, so the recursion lives here).  Returns the final
state and the number of meta-refresh hops performed.  The recursive call
passes the re-fetched html, the default `title=None` and
`ignore_read_more=False`, and `recursion_counter + 1`, exactly as in the
source. -/
def download_core (cfg : DlConfig) (env : DlEnv) (st : ArtState)
    (html : String) (title : Option String)
    (recursion_counter : Nat) (ignore_read_more : Bool) : ArtState × Nat :=
  if cfg.follow_meta_refresh then
    match env.metaRefreshUrl html with
    | some mru =>
      if h : recursion_counter < 1 then
        let r := download_core cfg env st (env.getHtml mru) none
          (recursion_counter + 1) false
        (r.1, r.2 + 1)
      else (finish_download cfg env st html title ignore_read_more, 0)
    | none => (finish_download cfg env st html title ignore_read_more, 0)
  else (finish_download cfg env st html title ignore_read_more, 0)
  termination_by 1 - recursion_counter
  decreasing_by omega

/-- Model of `Article.download` (lines 353-431): resolve the html — `input_html`
if supplied, otherwise the initial fetch, returning early with the
failure recorded when it yields nothing — then run the body. -/
def download (cfg : DlConfig) (env : DlEnv) (st : ArtState)
    (input_html : Option String) (title : Option String)
    (recursion_counter : Nat) (ignore_read_more : Bool) : ArtState × Nat :=
  match input_html with
  | some html => download_core cfg env st html title recursion_counter ignore_read_more
  | none =>
    match env.initialFetch with
    | none => ({ st with download_state := ADState.failedResponse }, 0)
    | some html => download_core cfg env st html title recursion_counter ignore_read_more

theorem download_core_hops_of_ge (cfg : DlConfig) (env : DlEnv) (st : ArtState)
    (html : String) (title : Option String)
    (rc : Nat) (irm : Bool) (h1 : 1 ≤ rc) :
    (download_core cfg env st html title rc irm).2 = 0 := by
  unfold download_core
  split
  · split
    · rw [dif_neg (by omega)]
    · rfl
  · rfl

theorem download_core_hops_le_one (cfg : DlConfig) (env : DlEnv) (st : ArtState)
    (html : String) (title : Option String) (rc : Nat) (irm : Bool) :
    (download_core cfg env st html title rc irm).2 ≤ 1 := by
  unfold download_core
  split
  · split
    · split
      · simp only
        rw [download_core_hops_of_ge cfg env st _ none _ false (by omega)]
      · exact Nat.zero_le 1
    · exact Nat.zero_le 1
  · exact Nat.zero_le 1

/-- C2: for every configuration, environment, state and arguments, a
`download` call performs at most one meta-refresh hop, however many
refresh directives are chained by the environment; and a call already at
recursion depth ≥ 1 performs none. -/
theorem c2_meta_refresh_bounded (cfg : DlConfig) (env : DlEnv) (st : ArtState)
    (input_html : Option String) (title : Option String)
    (rc : Nat) (irm : Bool) :
    (download cfg env st input_html title rc irm).2 ≤ 1 ∧
    (1 ≤ rc → (download cfg env st input_html title rc irm).2 = 0) := by
  unfold download
  cases input_html with
  | some html =>
    exact ⟨download_core_hops_le_one cfg env st html title rc irm,
      fun h1 => download_core_hops_of_ge cfg env st html title rc irm h1⟩
  | none =>
    cases env.initialFetch with
    | none => exact ⟨Nat.zero_le 1, fun _ => rfl⟩
    | some html =>
      exact ⟨download_core_hops_le_one cfg env st html title rc irm,
        fun h1 => download_core_hops_of_ge cfg env st html title rc irm h1⟩

/-- A concrete environment chaining refresh directives on every page:
every page refreshes to `http://b.com`, whose fetched body is `PAGE-B`
(itself carrying a refresh directive). -/
def chainEnv : DlEnv where
  initialFetch := some "PAGE-A"
  metaRefreshUrl := fun _ => some "http://b.com"
  getHtml := fun _ => "PAGE-B"
  readMoreHref := fun _ => none
  prepareUrl := fun u _ => u
  fetchHttp := fun _ => none

/-- A concrete environment whose initial page refreshes once: `PAGE-A`
carries a refresh directive pointing at `http://b.com`, whose body
`PAGE-B` has none. -/
def onceEnv : DlEnv where
  initialFetch := some "PAGE-A"
  metaRefreshUrl := fun h => if h = "PAGE-A" then some "http://b.com" else none
  getHtml := fun _ => "PAGE-B"
  readMoreHref := fun _ => none
  prepareUrl := fun u _ => u
  fetchHttp := fun _ => none

def refreshCfg : DlConfig where
  follow_meta_refresh := true
  read_more_link := ""

def stA : ArtState where
  url := "http://a.com"
  html := ""
  download_state := ADState.notStarted
  title := ""

/-- Witness for C2: even with refresh directives chained on every page,
the initial call performs exactly one hop (≤ 1), and a depth-1 call
performs none. -/
theorem c2_meta_refresh_bounded_witness :
    (download refreshCfg chainEnv stA none none 0 false).2 ≤ 1 ∧
    (download refreshCfg chainEnv stA none none 1 false).2 = 0 :=
  ⟨(c2_meta_refresh_bounded refreshCfg chainEnv stA none none 0 false).1,
   (c2_meta_refresh_bounded refreshCfg chainEnv stA none none 1 false).2
     (Nat.le_refl 1)⟩

/-- C7 (amended): when meta-refresh following is enabled, the fetched
html carries a refresh directive, the recursion depth is 0, the refresh
target's body is truthy and carries no further directive, and no
read-more selector is configured, `download` replaces the stored html
with the re-fetched body and marks the download successful — but the
article's url field is left unchanged (only the read-more branch
updates `self.url`). -/
theorem c7_meta_refresh_refetch (cfg : DlConfig) (env : DlEnv) (st : ArtState)
    (html mru : String) (title : Option String) (irm : Bool)
    (h1 : cfg.follow_meta_refresh = true)
    (h2 : cfg.read_more_link = "")
    (h3 : env.metaRefreshUrl html = some mru)
    (h4 : env.metaRefreshUrl (env.getHtml mru) = none)
    (h5 : env.getHtml mru ≠ "") :
    (download cfg env st (some html) title 0 irm).1.html = env.getHtml mru ∧
    (download cfg env st (some html) title 0 irm).1.url = st.url ∧
    (download cfg env st (some html) title 0 irm).1.download_state
      = ADState.success ∧
    (download cfg env st (some html) title 0 irm).2 = 1 := by
  have hunf : download cfg env st (some html) title 0 irm
      = ((download_core cfg env st (env.getHtml mru) none 1 false).1,
         (download_core cfg env st (env.getHtml mru) none 1 false).2 + 1) := by
    show download_core cfg env st html title 0 irm = _
    rw [download_core]
    simp only [h1, if_true, h3]
    rw [dif_pos (by omega)]
  have hinner : download_core cfg env st (env.getHtml mru) none 1 false
      = (finish_download cfg env st (env.getHtml mru) none false, 0) := by
    rw [download_core]
    simp only [h1, if_true, h4]
  have hfin : finish_download cfg env st (env.getHtml mru) none false
      = art_set_html st (env.getHtml mru) := by
    unfold finish_download apply_read_more
    rw [if_neg (by simp [h2])]
    rfl
  rw [hunf, hinner, hfin]
  unfold art_set_html
  rw [if_pos h5]
  exact ⟨rfl, rfl, rfl, rfl⟩

/-- Witness for C7's amended statement on the concrete one-hop
environment. -/
theorem c7_meta_refresh_refetch_witness :
    (download refreshCfg onceEnv stA (some "PAGE-A") none 0 false).1.html
      = onceEnv.getHtml "http://b.com" ∧
    (download refreshCfg onceEnv stA (some "PAGE-A") none 0 false).1.url
      = stA.url ∧
    (download refreshCfg onceEnv stA (some "PAGE-A") none 0 false).1.download_state
      = ADState.success ∧
    (download refreshCfg onceEnv stA (some "PAGE-A") none 0 false).2 = 1 :=
  c7_meta_refresh_refetch refreshCfg onceEnv stA "PAGE-A" "http://b.com" none false
    rfl rfl rfl rfl (by decide)

/-- Counterexample to C7 as stated: on the one-hop environment the
stored html is replaced by the re-fetched `PAGE-B`, but the article's
final url stays `http://a.com` — it is NOT replaced by the refresh
target `http://b.com`. -/
theorem c7_url_not_replaced_counterexample :
    (download refreshCfg onceEnv stA none none 0 false).1.html = "PAGE-B" ∧
    (download refreshCfg onceEnv stA none none 0 false).1.url = "http://a.com" ∧
    "http://a.com" ≠ "http://b.com" := by
  have e1 : onceEnv.metaRefreshUrl "PAGE-A" = some "http://b.com" := rfl
  have e2 : onceEnv.metaRefreshUrl "PAGE-B" = none := rfl
  have e3 : refreshCfg.follow_meta_refresh = true := rfl
  have hunf : download refreshCfg onceEnv stA none none 0 false
      = ((download_core refreshCfg onceEnv stA "PAGE-B" none 1 false).1,
         (download_core refreshCfg onceEnv stA "PAGE-B" none 1 false).2 + 1) := by
    show download_core refreshCfg onceEnv stA "PAGE-A" none 0 false = _
    rw [download_core]
    simp only [e1, e3, if_true]
    rw [dif_pos (by omega)]
    rfl
  have hinner : download_core refreshCfg onceEnv stA "PAGE-B" none 1 false
      = (finish_download refreshCfg onceEnv stA "PAGE-B" none false, 0) := by
    rw [download_core]
    simp only [e2, e3, if_true]
  rw [hunf, hinner]
  exact ⟨rfl, rfl, by decide⟩

/-! ## C6 / C10: `ContentExtractor.get_meta_data`

Python dictionaries preserve insertion order; the nested structure is
modelled as an insertion-ordered association list over a
string/int/mapping union.  A meta element is modelled by its four
relevant attributes (`property`, `name`, `content`, `value`), each
possibly absent. -/

/-- A value in the nested metadata mapping: string, int (for all-digit
contents), or a nested mapping. -/
inductive MetaVal where
  | s : String → MetaVal
  | i : Int → MetaVal
  | m : List (String × MetaVal) → MetaVal

/-- Python truthiness of a metadata value (empty string, zero and empty
dict are falsy). -/
def MetaVal.truthy : MetaVal → Bool
  | MetaVal.s v => v != ""
  | MetaVal.i n => n != 0
  | MetaVal.m l => !l.isEmpty

/-- Model of `isinstance(x, str) or isinstance(x, int)`. -/
def MetaVal.isScalar : MetaVal → Bool
  | MetaVal.s _ => true
  | MetaVal.i _ => true
  | MetaVal.m _ => false

/-- Dict lookup (first — and, keys being unique, only — match). -/
def mget : List (String × MetaVal) → String → Option MetaVal
  | [], _ => none
  | p :: ps, k => if p.1 = k then some p.2 else mget ps k

/-- Dict assignment: update in place if the key exists, else append
(Python dict insertion-order semantics). -/
def mset : List (String × MetaVal) → String → MetaVal → List (String × MetaVal)
  | [], k, v => [(k, v)]
  | p :: ps, k, v => if p.1 = k then (p.1, v) :: ps else p :: mset ps k v

/-- The attributes of one `<meta>` element consulted by `get_meta_data`. -/
structure MetaProp where
  property : Option String
  name : Option String
  content : Option String
  value : Option String

/-- The inner `for idx, part in enumerate(key)` loop of `get_meta_data`
(lines 496-506), rebuilt recursively: the last part stores the value;
an intermediate part descends into its sub-dict, replacing a falsy
existing value with `dict()` and wrapping a truthy scalar as
`{"identifier": scalar}`. -/
def setNested (d : List (String × MetaVal)) (parts : List String)
    (v : MetaVal) : List (String × MetaVal) :=
  match parts with
  | [] => d
  | [part] => mset d part v
  | part :: rest =>
    let sub : List (String × MetaVal) :=
      match mget d part with
      | none => []
      | some x =>
        if x.truthy = false then []
        else if x.isScalar then [("identifier", x)]
        else match x with
             | MetaVal.m l => l
             | _ => []
    mset d part (MetaVal.m (setNested sub rest v))

/-- Model of `int(value) if value.isdigit() else value` on the stripped value. -/
def metaValOf (vs : String) : MetaVal :=
  if pyIsdigit vs then MetaVal.i (strToInt vs) else MetaVal.s vs

/-- Model of `ref = data[key_head]` on a `defaultdict(dict)` (an absent key yields
an empty dict), followed by
`if isinstance(ref, str) or isinstance(ref, int): data[key_head] = {key_head: ref}`:
the sub-dict in which the remaining key parts are stored. -/
def headSub (d : List (String × MetaVal)) (key_head : String) :
    List (String × MetaVal) :=
  match mget d key_head with
  | none => []
  | some x =>
    if x.isScalar then [(key_head, x)]
    else match x with
         | MetaVal.m l => l
         | _ => []

/-- The body of `get_meta_data`'s per-element processing once the key and
value are known truthy: both are stripped, an all-digit value becomes an
`int`, a colon-free key is stored flat, otherwise the key is split on
`:` and the value stored through the nested-dict loop.  Split out of
`metaStep` so theorems can unfold it independently of the attribute
plumbing. -/
def metaStepCore (d : List (String × MetaVal)) (k v : String) :
    List (String × MetaVal) :=
  if ':' ∉ (pyStrip k).toList then
    mset d (pyStrip k) (metaValOf (pyStrip v))
  else
    match (splitOnPred (fun c => c = ':') (pyStrip k).toList).map String.mk with
    | [] => d
    | key_head :: restParts =>
      mset d key_head
        (MetaVal.m (setNested (headSub d key_head) restParts
          (metaValOf (pyStrip v))))

/-- Processing of a single `<meta>` element by `get_meta_data` (lines
473-506): `key = property or name`, `value = content or value`; a falsy
key or value skips the element; otherwise both are stripped and stored
via `metaStepCore`. -/
def metaStep (d : List (String × MetaVal)) (prop : MetaProp) :
    List (String × MetaVal) :=
  match pyOr prop.property prop.name, pyOr prop.content prop.value with
  | some k, some v => if k ≠ "" ∧ v ≠ "" then metaStepCore d k v else d
  | _, _ => d

/-- Model of `ContentExtractor.get_meta_data`, over the document's `<meta>`
elements in order. -/
def get_meta_data (props : List MetaProp) : List (String × MetaVal) :=
  props.foldl metaStep []

theorem pyOr_some_truthy (k : String) (hk : k ≠ "") (b : Option String) :
    pyOr (some k) b = some k := by
  simp [pyOr, truthyOpt, hk]

theorem metaStep_some (d : List (String × MetaVal)) (k v : String)
    (hk : k ≠ "") (hv : v ≠ "") :
    metaStep d (MetaProp.mk (some k) none (some v) none) = metaStepCore d k v := by
  unfold metaStep
  rw [pyOr_some_truthy k hk, pyOr_some_truthy v hv]
  exact if_pos ⟨hk, hv⟩

/-- Counterexample to C6 as stated: a scalar `og` followed by the deeper
key `og:title` is wrapped under its own name `og`, not under a synthetic
`identifier` field. -/
theorem c6_identifier_counterexample :
    get_meta_data
      [MetaProp.mk (some "og") none (some "TOP") none,
       MetaProp.mk (some "og:title") none (some "Hello") none]
      = [("og", MetaVal.m [("og", MetaVal.s "TOP"), ("title", MetaVal.s "Hello")])] ∧
    get_meta_data
      [MetaProp.mk (some "og") none (some "TOP") none,
       MetaProp.mk (some "og:title") none (some "Hello") none]
      ≠ [("og", MetaVal.m [("identifier", MetaVal.s "TOP"),
          ("title", MetaVal.s "Hello")])] := by
  refine ⟨rfl, ?_⟩
  intro h
  have hkey := congrArg
    (fun l => match l with
              | [(_, MetaVal.m ((k2, _) :: _))] => k2
              | _ => "") h
  exact absurd hkey (by decide)

/-- C6 (amended): when a key holding a truthy scalar is later used as a
namespace prefix, the wrapping depends on the scalar's position: a scalar
at the top-level key head is converted in place into `{key_head: scalar}`
— a single-entry mapping under its own name — while a truthy scalar at an
intermediate deeper part is wrapped as `{"identifier": scalar}`; the
later deeper key's value is then stored in the resulting mapping. -/
theorem c6_scalar_namespace_wrapping (w v : String)
    (hw1 : w ≠ "") (hw2 : pyStrip w = w) (hw3 : pyIsdigit w = false)
    (hv1 : v ≠ "") (hv2 : pyStrip v = v) (hv3 : pyIsdigit v = false) :
    get_meta_data
      [MetaProp.mk (some "og") none (some w) none,
       MetaProp.mk (some "og:title") none (some v) none]
      = [("og", MetaVal.m [("og", MetaVal.s w), ("title", MetaVal.s v)])] ∧
    get_meta_data
      [MetaProp.mk (some "og:image") none (some w) none,
       MetaProp.mk (some "og:image:width") none (some v) none]
      = [("og", MetaVal.m [("image",
          MetaVal.m [("identifier", MetaVal.s w), ("width", MetaVal.s v)])])] := by
  have hvalw : metaValOf (pyStrip w) = MetaVal.s w := by
    rw [hw2]; unfold metaValOf; rw [hw3]; simp
  have hvalv : metaValOf (pyStrip v) = MetaVal.s v := by
    rw [hv2]; unfold metaValOf; rw [hv3]; simp
  constructor
  · show metaStep (metaStep [] (MetaProp.mk (some "og") none (some w) none))
      (MetaProp.mk (some "og:title") none (some v) none) = _
    rw [metaStep_some [] "og" w (by decide) hw1]
    have s1 : metaStepCore [] "og" w = [("og", MetaVal.s w)] := by
      unfold metaStepCore
      rw [if_pos (by decide), hvalw]
      rfl
    rw [s1, metaStep_some _ "og:title" v (by decide) hv1]
    unfold metaStepCore
    rw [if_neg (by decide), hvalv]
    rfl
  · show metaStep (metaStep [] (MetaProp.mk (some "og:image") none (some w) none))
      (MetaProp.mk (some "og:image:width") none (some v) none) = _
    rw [metaStep_some [] "og:image" w (by decide) hw1]
    have s1 : metaStepCore [] "og:image" w
        = [("og", MetaVal.m [("image", MetaVal.s w)])] := by
      unfold metaStepCore
      rw [if_neg (by decide), hvalw]
      rfl
    rw [s1, metaStep_some _ "og:image:width" v (by decide) hv1]
    unfold metaStepCore
    rw [if_neg (by decide), hvalv]
    have htru : (MetaVal.s w).truthy = true := by
      simp [MetaVal.truthy, hw1]
    have hsetN : setNested [("image", MetaVal.s w)] ["image", "width"] (MetaVal.s v)
        = [("image", MetaVal.m [("identifier", MetaVal.s w), ("width", MetaVal.s v)])] := by
      show mset [("image", MetaVal.s w)] "image"
          (MetaVal.m (setNested
            (if (MetaVal.s w).truthy = false then []
             else if (MetaVal.s w).isScalar = true then [("identifier", MetaVal.s w)]
             else match MetaVal.s w with
                  | MetaVal.m l => l
                  | _ => [])
            ["width"] (MetaVal.s v))) = _
      rw [htru, if_neg (by simp), if_pos (show (MetaVal.s w).isScalar = true from rfl)]
      rfl
    show mset [("og", MetaVal.m [("image", MetaVal.s w)])] "og"
        (MetaVal.m (setNested (headSub [("og", MetaVal.m [("image", MetaVal.s w)])] "og")
          ["image", "width"] (MetaVal.s v))) = _
    rw [show headSub [("og", MetaVal.m [("image", MetaVal.s w)])] "og"
        = [("image", MetaVal.s w)] from rfl]
    rw [hsetN]
    rfl

/-- Witness for C6's amended statement at concrete scalar values. -/
theorem c6_scalar_namespace_wrapping_witness :
    get_meta_data
      [MetaProp.mk (some "og") none (some "TOPX") none,
       MetaProp.mk (some "og:title") none (some "Hi") none]
      = [("og", MetaVal.m [("og", MetaVal.s "TOPX"), ("title", MetaVal.s "Hi")])] ∧
    get_meta_data
      [MetaProp.mk (some "og:image") none (some "TOPX") none,
       MetaProp.mk (some "og:image:width") none (some "Hi") none]
      = [("og", MetaVal.m [("image",
          MetaVal.m [("identifier", MetaVal.s "TOPX"), ("width", MetaVal.s "Hi")])])] :=
  c6_scalar_namespace_wrapping "TOPX" "Hi"
    (by decide) (by decide) (by decide) (by decide) (by decide) (by decide)

/-- Counterexample to C10 as stated: a whitespace-only content attribute
is truthy before stripping, so the element is NOT skipped — it is stored
with its value stripped to the empty string. -/
theorem c10_whitespace_not_skipped_counterexample :
    get_meta_data [MetaProp.mk (some " k ") none (some " ") none]
      = [("k", MetaVal.s "")] ∧
    get_meta_data [MetaProp.mk (some " k ") none (some " ") none] ≠ [] :=
  ⟨rfl, List.cons_ne_nil _ _⟩

/-- C10 (amended): for a meta element with a truthy key (no `:` after
stripping) and truthy value, the stored value is the stripped string, or
an `int` when the stripped value consists entirely of digits; an element
whose key or value attribute is missing or empty *before* stripping is
skipped; but whitespace-only attributes pass that check and are stored
stripped (possibly as empty strings), not skipped. -/
theorem c10_meta_value_conversion :
    (∀ k v : String, k ≠ "" → v ≠ "" → ':' ∉ (pyStrip k).toList →
      get_meta_data [MetaProp.mk (some k) none (some v) none]
        = [(pyStrip k,
            if pyIsdigit (pyStrip v) then MetaVal.i (strToInt (pyStrip v))
            else MetaVal.s (pyStrip v))]) ∧
    (∀ k : String, get_meta_data [MetaProp.mk (some k) none (some "") none] = []) ∧
    (∀ v : String, get_meta_data [MetaProp.mk (some "") none (some v) none] = []) ∧
    get_meta_data [MetaProp.mk (some " k ") none (some " ") none]
      = [("k", MetaVal.s "")] := by
  refine ⟨?_, ?_, ?_, rfl⟩
  · intro k v hk hv hcolon
    show metaStep [] (MetaProp.mk (some k) none (some v) none) = _
    rw [metaStep_some [] k v hk hv]
    unfold metaStepCore
    rw [if_pos hcolon]
    rfl
  · intro k
    show metaStep [] (MetaProp.mk (some k) none (some "") none) = _
    unfold metaStep
    simp [pyOr, truthyOpt]
  · intro v
    show metaStep [] (MetaProp.mk (some "") none (some v) none) = _
    unfold metaStep
    simp [pyOr, truthyOpt]

/-- Witness for C10 at concrete inputs: an all-digit value is stored as
an integer, and an empty value attribute is skipped. -/
theorem c10_meta_value_conversion_witness :
    get_meta_data [MetaProp.mk (some "width") none (some " 300 ") none]
      = [("width",
          if pyIsdigit (pyStrip " 300 ") then MetaVal.i (strToInt (pyStrip " 300 "))
          else MetaVal.s (pyStrip " 300 "))] ∧
    get_meta_data [MetaProp.mk (some "author") none (some "") none] = [] :=
  ⟨c10_meta_value_conversion.1 "width" " 300 " (by decide) (by decide) (by decide),
   c10_meta_value_conversion.2.1 "author"⟩

/-! ## C5: `ContentExtractor.get_canonical_link`

The Python standard library's `urlparse`/`urlunparse` are external to the
repository; they are modelled here restricted to the
`scheme://netloc/path` skeleton (no params/query/fragment splitting, no
userinfo/port/IPv6 — none of which are exercised by the claims). -/

/-- The components of `urllib.parse.urlparse` used by
`get_canonical_link`. -/
structure PyParsedUrl where
  scheme : String
  netloc : String
  path : String

/-- A valid URL scheme prefix: non-empty, leading letter, then
letters/digits/`+`/`-`/`.`. -/
def validScheme : List Char → Bool
  | [] => false
  | c :: cs => c.isAlpha && cs.all (fun d => d.isAlphanum || d = '+' || d = '-' || d = '.')

/-- Model of `urllib.parse.urlparse` (external): split off
`scheme:` when the prefix before the first `:` is a valid scheme
(lowercasing it), then `//netloc` up to the next `/`, leaving the rest as
the path. -/
def pyUrlparse (s : String) : PyParsedUrl :=
  let l := s.toList
  let pre := l.takeWhile (fun c => c ≠ ':')
  let hasScheme := pre.length < l.length && validScheme pre
  let scheme := if hasScheme then String.mk (pre.map pyLowerChar) else ""
  let rest := if hasScheme then l.drop (pre.length + 1) else l
  if rest.take 2 = ['/', '/'] then
    let netloc := (rest.drop 2).takeWhile (fun c => c ≠ '/')
    PyParsedUrl.mk scheme (String.mk netloc) (String.mk ((rest.drop 2).drop netloc.length))
  else
    PyParsedUrl.mk scheme "" (String.mk rest)

/-- Model of `ParseResult.hostname` (external model): the lowercased netloc up to
a port separator; `None` (here `none`) when empty. -/
def pyHostname (netloc : String) : Option String :=
  let h := (netloc.toList.takeWhile (fun c => c ≠ ':')).map pyLowerChar
  if h = [] then none else some (String.mk h)

/-- The regex `re.match(".*{hostname}(?=/)/(.*)", path)` of
`get_canonical_link` (line 532): the leading `.*` is greedy, so this
captures everything after the *last* occurrence of the hostname followed
by `/`.  (The source interpolates the hostname unescaped, so its dots
are regex wildcards; the model treats them as literal characters, which
agrees on every hostname-shaped input.) -/
def lastHostStrip (host : List Char) : List Char → Option (List Char)
  | [] => none
  | c :: rest =>
    match lastHostStrip host rest with
    | some r => some r
    | none =>
      if (host ++ ['/']).isPrefixOf (c :: rest) then
        some ((c :: rest).drop (host.length + 1))
      else none

/-- Model of `urllib.parse.urlunparse` (external) on
`(scheme, netloc, path, "", "", "")`. -/
def pyUrlunparse (scheme netloc path : String) : String :=
  let url :=
    if netloc ≠ "" ∨ path.toList.take 2 = ['/', '/'] then
      (if path ≠ "" ∧ path.toList.take 1 ≠ ['/'] then
        "//" ++ netloc ++ "/" ++ path
      else "//" ++ netloc ++ path)
    else path
  if scheme ≠ "" then scheme ++ ":" ++ url else url

/-- Model of `meta_url = canonical or og_url or ""` (line 523). -/
def chooseMetaUrl (canonical og_url : String) : String :=
  if canonical ≠ "" then canonical
  else if og_url ≠ "" then og_url else ""

/-- The body of `get_canonical_link` once `meta_url` is chosen (lines
524-553): when truthy, strip it and, if it parses without a hostname,
strip a hostname-in-path occurrence (the *last* one) and reassemble with
the article URL's scheme and hostname; otherwise return it stripped. -/
def resolveMetaUrl (article_url meta_url : String) : String :=
  if meta_url ≠ "" then
    if pyHostname (pyUrlparse (pyStrip meta_url)).netloc = none then
      pyUrlunparse (pyUrlparse article_url).scheme
        (match pyHostname (pyUrlparse article_url).netloc with
         | some h => h
         | none => "")
        (match lastHostStrip
            (match pyHostname (pyUrlparse article_url).netloc with
             | some h => h
             | none => "None").toList
            (pyUrlparse (pyStrip meta_url)).path.toList with
         | some r => String.mk r
         | none => (pyUrlparse (pyStrip meta_url)).path)
    else pyStrip meta_url
  else meta_url

/-- Model of `ContentExtractor.get_canonical_link` (lines 509-553).  `canonical`
is the `href` of the first `<link rel="canonical">` (`""` when absent,
matching `if links else ""` and a `None` attribute, both falsy), and
`og_url` is the `og:url` meta content (already stripped by
`get_meta_content`, `""` when absent). -/
def get_canonical_link (article_url canonical og_url : String) : String :=
  resolveMetaUrl article_url (chooseMetaUrl canonical og_url)

/-- C5: the canonical `<link>` href is preferred and `og:url` is the
fallback; when the chosen URL has no hostname but its path contains the
article's hostname followed by `/`, everything up to and including that
hostname is stripped and the remainder is reassembled with the article
URL's scheme and hostname; in particular `og:url = "example.com/article.html"`
on an article at `https://example.com/news/x` resolves to
`https://example.com/article.html`. -/
theorem c5_canonical_link_resolution :
    (∀ article_url canonical og_url : String, canonical ≠ "" →
      get_canonical_link article_url canonical og_url
        = get_canonical_link article_url canonical "") ∧
    (∀ article_url og_url : String,
      get_canonical_link article_url "" og_url
        = get_canonical_link article_url og_url "") ∧
    (∀ article_url meta_url host rest : String,
      (pyUrlparse (pyStrip meta_url)).netloc = "" →
      pyHostname (pyUrlparse article_url).netloc = some host →
      lastHostStrip host.toList (pyUrlparse (pyStrip meta_url)).path.toList
        = some rest.toList →
      pyStrip meta_url ≠ "" →
      get_canonical_link article_url meta_url ""
        = pyUrlunparse (pyUrlparse article_url).scheme host rest) ∧
    get_canonical_link "https://example.com/news/x" "" "example.com/article.html"
      = "https://example.com/article.html" := by
  refine ⟨?_, ?_, ?_, by decide⟩
  · intro article_url canonical og_url hc
    unfold get_canonical_link chooseMetaUrl
    simp only [if_pos hc]
  · intro article_url og_url
    unfold get_canonical_link
    have hch : chooseMetaUrl "" og_url = chooseMetaUrl og_url "" := by
      unfold chooseMetaUrl
      by_cases ho : og_url = ""
      · subst ho; simp
      · simp [ho]
    rw [hch]
  · intro article_url meta_url host rest hnet hhost hstrip hne
    have hmu : meta_url ≠ "" := by
      intro h
      rw [h] at hne
      exact hne rfl
    show resolveMetaUrl article_url (chooseMetaUrl meta_url "") = _
    rw [show chooseMetaUrl meta_url "" = meta_url from by
      unfold chooseMetaUrl; rw [if_pos hmu]]
    unfold resolveMetaUrl
    rw [if_pos hmu, hnet, show pyHostname "" = none from rfl, if_pos rfl, hhost]
    dsimp only
    rw [hstrip]
    rfl

/-- Witness for C5 at concrete URLs: canonical preference, og:url
fallback, and the hostname-in-path strip. -/
theorem c5_canonical_link_resolution_witness :
    get_canonical_link "https://example.com/news/x"
        "https://example.com/canon.html" "https://other.org/y"
      = get_canonical_link "https://example.com/news/x"
        "https://example.com/canon.html" "" ∧
    get_canonical_link "https://example.com/news/x" "" "example.com/article.html"
      = get_canonical_link "https://example.com/news/x" "example.com/article.html" "" ∧
    get_canonical_link "https://example.com/news/x" "example.com/article.html" ""
      = pyUrlunparse (pyUrlparse "https://example.com/news/x").scheme
          "example.com" "article.html" :=
  ⟨c5_canonical_link_resolution.1 "https://example.com/news/x"
      "https://example.com/canon.html" "https://other.org/y" (by decide),
   c5_canonical_link_resolution.2.1 "https://example.com/news/x"
      "example.com/article.html",
   c5_canonical_link_resolution.2.2.1 "https://example.com/news/x"
      "example.com/article.html" "example.com" "article.html"
      (by decide) (by decide) (by decide) (by decide)⟩

/-! ## C4: `ContentExtractor.get_title` / `split_title`

The lxml lookups are abstracted as `TitleSignals`: the `<title>` text
(`none` when no title element), the texts of all `<h1>` elements in
document order, and the `og:title` meta content (already stripped, `""`
when absent). -/

/-- Modelled from the spec: the splitter patterns live in
`extractors/defines.py`, which is not under `src/`; §4.3 lists the
delimiters tried in order as `|`, `-`, `_`, `/`, ` » `. -/
def PIPE_SPLITTER : String := "|"

/-- Modelled from the spec (defines.py not in `src/`): the dash
delimiter. -/
def DASH_SPLITTER : String := "-"

/-- Modelled from the spec (defines.py not in `src/`): the underscore
delimiter. -/
def UNDERSCORE_SPLITTER : String := "_"

/-- Modelled from the spec (defines.py not in `src/`): the slash
delimiter. -/
def SLASH_SPLITTER : String := "/"

/-- Modelled from the spec (defines.py not in `src/`): the arrows
delimiter. -/
def ARROWS_SPLITTER : String := " » "

/-- Modelled from the spec: `TITLE_REPLACEMENTS` from defines.py (not in
`src/`), a small character-replacement table applied to the winning
piece; modelled as the `&raquo;` entity replacement — identity on plain
ASCII text. -/
def titleReplacements (s : String) : String := replaceSub "&raquo;" "»" s

/-- Modelled from the spec: `MOTLEY_REPLACEMENT` from defines.py (not in
`src/`), the motley-character replacement applied to the final title;
modelled as removal of the `&#65533;` replacement-character entity —
identity on plain ASCII text. -/
def motleyReplace (s : String) : String := replaceSub "&#65533;" "" s

/-- A character kept by `get_title`'s filter regex
`[^一-龥a-zA-Z0-9\ ]` (CJK range, ASCII alphanumerics, space). -/
def filterTitleChar (c : Char) : Bool :=
  c.isAlphanum || c = ' ' || (0x4e00 ≤ c.toNat && c.toNat ≤ 0x9fa5)

/-- Model of `filter_regex.sub("", s).lower()` from `get_title`. -/
def filterTitle (s : String) : String :=
  String.mk ((s.toList.filter filterTitleChar).map pyLowerChar)

/-- Model of `filter_regex.sub("", s).lower()` from `split_title` (hint filter,
`[^a-zA-Z0-9\ ]`: ASCII alphanumerics and space only). -/
def filterAZ (s : String) : String :=
  String.mk ((s.toList.filter (fun c => c.isAlphanum || c = ' ')).map pyLowerChar)

/-- The piece-selection loop of `split_title` (lines 381-389): a piece
containing the filtered hint wins outright (loop `break`); otherwise the
first longest piece wins (strict improvement updates the index). -/
def pickPiece (hintF : String) : List String → Nat → Nat → Nat → Nat
  | [], _, _, bestIdx => bestIdx
  | p :: ps, i, bestLen, bestIdx =>
    let current := pyStrip p
    if hintF ≠ "" ∧ containsSub hintF.toList (filterAZ current).toList = true then i
    else if bestLen < current.length then pickPiece hintF ps (i + 1) current.length i
    else pickPiece hintF ps (i + 1) bestLen bestIdx

/-- Model of `ContentExtractor.split_title` (lines 371-393). -/
def split_title (title sep hint : String) : String :=
  let title_pieces := (splitOnSep sep.toList title.toList).map String.mk
  let hintF := if hint ≠ "" then filterAZ hint else hint
  pyStrip (titleReplacements (title_pieces.getD (pickPiece hintF title_pieces 0 0 0) ""))

/-- The document signals consumed by `get_title`. -/
structure TitleSignals where
  titleText : Option String
  h1Texts : List String
  ogTitle : String

/-- Model of `ContentExtractor.get_title` (lines 252-369): extract the longest h1
(Python's stable `sort(key=len, reverse=True)`), discard it when
`len(h1.split(" ")) <= 2`, collapse its whitespace; then run the
title/h1/og:title decision cascade and, failing all of it, split the
title on the first delimiter found; finally apply the motley replacement
and prefer the h1 verbatim when the filtered results coincide. -/
def get_title (sig : TitleSignals) : String :=
  match sig.titleText with
  | none => ""
  | some title_text =>
    let title_text_h1 :=
      match stableSortDescBy String.length sig.h1Texts with
      | [] => ""
      | h :: _ =>
        let d := if (splitOnPred (fun c => c = ' ') h.toList).length ≤ 2 then "" else h
        String.intercalate " "
          (((splitOnPred isPySpace d.toList).filter (fun g => g ≠ [])).map String.mk)
    let title_text_fb := sig.ogTitle
    let ft := filterTitle title_text
    let fh1 := filterTitle title_text_h1
    let ffb := filterTitle title_text_fb
    let pick :=
      if title_text_h1 = title_text then (title_text, true)
      else if fh1 ≠ "" ∧ fh1 = ffb then (title_text_h1, true)
      else if fh1 ≠ "" ∧ containsSub fh1.toList ft.toList = true ∧
          ffb ≠ "" ∧ containsSub ffb.toList ft.toList = true ∧
          title_text_fb.length < title_text_h1.length then (title_text_h1, true)
      else if ffb ≠ "" ∧ ffb ≠ ft ∧ ffb.toList.isPrefixOf ft.toList = true then
        (title_text_fb, true)
      else (title_text, false)
    let p1 := if pick.2 = false ∧ '|' ∈ pick.1.toList then
        (split_title pick.1 PIPE_SPLITTER title_text_h1, true) else pick
    let p2 := if p1.2 = false ∧ '-' ∈ p1.1.toList then
        (split_title p1.1 DASH_SPLITTER title_text_h1, true) else p1
    let p3 := if p2.2 = false ∧ '_' ∈ p2.1.toList then
        (split_title p2.1 UNDERSCORE_SPLITTER title_text_h1, true) else p2
    let p4 := if p3.2 = false ∧ '/' ∈ p3.1.toList then
        (split_title p3.1 SLASH_SPLITTER title_text_h1, true) else p3
    let p5 := if p4.2 = false ∧ containsSub " » ".toList p4.1.toList = true then
        (split_title p4.1 ARROWS_SPLITTER title_text_h1, true) else p4
    let title := motleyReplace p5.1
    if fh1 = filterTitle title then title_text_h1 else title

/-- Counterexample to C4 as stated: on
`<title>Foo - Bar News</title>` with `<h1>Foo</h1>`, `get_title` does
NOT return `"Foo"`. -/
theorem c4_title_counterexample :
    get_title (TitleSignals.mk (some "Foo - Bar News") ["Foo"] "") ≠ "Foo" := by
  decide

/-- C4 (amended): on `<title>Foo - Bar News</title>` with `<h1>Foo</h1>`
and no `og:title`, `get_title` returns `"Bar News"`: the one-word h1
`"Foo"` is discarded (h1 candidates of two or fewer space-separated
words are dropped), leaving an empty hint, so the longest dash-split
piece wins — not the piece matching the h1. -/
theorem c4_title_dash_split :
    get_title (TitleSignals.mk (some "Foo - Bar News") ["Foo"] "") = "Bar News" := by
  decide

/-! ## C3 / C8: `ContentExtractor.get_authors`

`parse_byline` is embedded in full.  The lxml attribute search
(`AUTHOR_ATTRS`/`AUTHOR_VALS` from defines.py, not in `src/`) is
abstracted as the list of extracted content strings of the matched
elements, in document order, and the stopword regex (built from
`AUTHOR_STOP_WORDS`, also in defines.py) as a `String → String`
parameter. -/

/-- A character of the name-token class `[\w'\-\.]` (`\w` in its ASCII
reading). -/
def isNameChar (c : Char) : Bool :=
  c.isAlphanum || c = '_' || c = Char.ofNat 39 || c = '-' || c = '.'

/-- One left-to-right pass of `re.sub("<[^<]+?>", "", …)`.  The second
argument is `none` in plain-text mode and `some buf` (reversed pending
characters, starting with `<`) while scanning a tag candidate; a
candidate closes at the first `>` after at least one `<`-free character,
fails at a nested `<` (emitting its pending text and restarting there),
and is emitted verbatim when the input ends unfinished. -/
def rmTagsGo : List Char → Option (List Char) → List Char
  | [], none => []
  | [], some buf => buf.reverse
  | c :: rest, none =>
    if c = '<' then rmTagsGo rest (some ['<'])
    else c :: rmTagsGo rest none
  | c :: rest, some buf =>
    if c = '<' then buf.reverse ++ rmTagsGo rest (some ['<'])
    else if c = '>' ∧ 2 ≤ buf.length then rmTagsGo rest none
    else rmTagsGo rest (some (c :: buf))

/-- Model of `re.sub("<[^<]+?>", "", s)`. -/
def removeTags (l : List Char) : List Char := rmTagsGo l none

/-- The characters replaced by `re.sub("[\n\t\r\xa0]", " ", …)`. -/
def noiseChar (c : Char) : Bool :=
  c = Char.ofNat 10 || c = Char.ofNat 9 || c = Char.ofNat 13 || c = Char.ofNat 160

/-- Model of `[bB][yY][\:\s]` at the current position. -/
def byCond (c1 c2 c3 : Char) : Bool :=
  (c1 = 'b' || c1 = 'B') && (c2 = 'y' || c2 = 'Y') && (c3 = ':' || isPySpace c3)

/-- Model of `[fF]rom[\:\s]` at the current position. -/
def fromCond (c1 c2 c3 c4 c5 : Char) : Bool :=
  (c1 = 'f' || c1 = 'F') && c2 = 'r' && c3 = 'o' && c4 = 'm' &&
  (c5 = ':' || isPySpace c5)

/-- Fuelled worker for `removeByFrom` (the fuel keeps the scan
structural; it is always called with `fuel = l.length`, which is
sufficient because every step consumes at least one character). -/
def rmByFromGo : Nat → List Char → List Char
  | 0, l => l
  | _ + 1, [] => []
  | fuel + 1, c1 :: rest =>
    match rest with
    | c2 :: c3 :: rest3 =>
      if byCond c1 c2 c3 then rmByFromGo fuel rest3
      else
        match rest3 with
        | c4 :: c5 :: rest5 =>
          if fromCond c1 c2 c3 c4 c5 then rmByFromGo fuel rest5
          else c1 :: rmByFromGo fuel rest
        | _ => c1 :: rmByFromGo fuel rest
    | _ => c1 :: rmByFromGo fuel rest

/-- Model of `re.sub(r"[bB][yY][\:\s]|[fF]rom[\:\s]", "", …)`: scan left to
right; at each position try `[bB][yY][:\s]` (three characters), then
`[fF]rom[:\s]` (five), else keep the character and advance. -/
def removeByFrom (l : List Char) : List Char := rmByFromGo l.length l

/-- Model of `contains_digits` from `get_authors`. -/
def contains_digits (s : String) : Bool := s.toList.any Char.isDigit

/-- The token-grouping loop of `parse_byline` (lines 114-131):
`"and"`, `","` and `""` are delimiters; a delimiter flushes a non-empty
current name (of any length); a token containing a digit is dropped;
the trailing group is kept only when it has at least two tokens. -/
def byline_loop : List String → List String → List String → List String
  | [], ath, cur =>
    if 2 ≤ cur.length then ath ++ [String.intercalate " " cur] else ath
  | t :: ts, ath, cur =>
    if t = "and" ∨ t = "," ∨ t = "" then
      (if cur ≠ [] then byline_loop ts (ath ++ [String.intercalate " " cur]) []
       else byline_loop ts ath cur)
    else if contains_digits t then byline_loop ts ath cur
    else byline_loop ts ath (cur ++ [t])

/-- Model of `get_authors.parse_byline` (lines 88-133). -/
def parse_byline (s : String) : List String :=
  let s1 := removeTags s.toList
  let s2 := s1.map (fun c => if noiseChar c then ' ' else c)
  let s3 := removeByFrom s2
  let s4 := pyStripL s3
  let tokens := (splitOnPred (fun c => !isNameChar c) s4).map
    (fun t => pyStrip (String.mk t))
  byline_loop tokens [] []

/-- The deduplication key of `uniqify_list`: `item.lower().strip()`. -/
def authorKey (s : String) : String := pyStrip (pyLower s)

/-- One `seen[item.lower().strip()] = item.strip()` assignment on the
insertion-ordered dict: update in place when the key exists (the stored
value becomes the new one), else append. -/
def odInsert : List (String × String) → String → String → List (String × String)
  | [], k, v => [(k, v)]
  | p :: ps, k, v => if p.1 = k then (p.1, v) :: ps else p :: odInsert ps k v

/-- The loop body of `uniqify_list`. -/
def authorStep (d : List (String × String)) (item : String) :
    List (String × String) :=
  odInsert d (authorKey item) (pyStrip item)

/-- Model of `get_authors.uniqify_list` (lines 73-86): fill the ordered dict,
then emit the values of the truthy keys in key-insertion order. -/
def uniqify_list (lst : List String) : List String :=
  ((lst.foldl authorStep []).filter (fun p => p.1 ≠ "")).map Prod.snd

/-- The author candidates accumulated by `get_authors` before
deduplication: parse each non-empty extracted content as a byline, then
apply the stopword filter to every candidate. -/
def rawAuthors (stopFilter : String → String) (contents : List String) :
    List String :=
  (((contents.filter (fun c => 0 < c.length)).map parse_byline).flatten).map
    stopFilter

/-- Model of `ContentExtractor.get_authors` (lines 60-161). -/
def get_authors (stopFilter : String → String) (contents : List String) :
    List String :=
  uniqify_list (rawAuthors stopFilter contents)

/-- Counterexample to C8 as stated: `parse_byline` on
`"John and Mary Smith"` returns the single-token name `"John"` (the
group flushed at the `"and"` delimiter is accepted without the two-token
check). -/
theorem c8_single_token_counterexample :
    parse_byline "John and Mary Smith" = ["John", "Mary Smith"] ∧
    "John" ∈ parse_byline "John and Mary Smith" ∧
    ' ' ∉ "John".toList := by
  refine ⟨by decide, by decide, by decide⟩

theorem byline_loop_append (ts : List String) :
    ∀ (a b cur : List String),
      byline_loop ts (a ++ b) cur = a ++ byline_loop ts b cur := by
  induction ts with
  | nil =>
    intro a b cur
    simp only [byline_loop]
    split <;> simp
  | cons t ts ih =>
    intro a b cur
    simp only [byline_loop]
    by_cases h1 : t = "and" ∨ t = "," ∨ t = ""
    · rw [if_pos h1, if_pos h1]
      by_cases h2 : cur ≠ []
      · rw [if_pos h2, if_pos h2, List.append_assoc, ih]
      · rw [if_neg h2, if_neg h2, ih]
    · rw [if_neg h1, if_neg h1]
      by_cases h2 : contains_digits t
      · rw [if_pos h2, if_pos h2, ih]
      · rw [if_neg h2, if_neg h2, ih]

/-- C8 (amended): the two-token minimum applies only to the trailing
group at the end of the byline: a non-empty group flushed by a delimiter
token is accepted whatever its size — in particular a single non-digit
token followed by a delimiter is emitted as an author — while a single
trailing token is rejected. -/
theorem c8_token_grouping (t : String) (ts : List String)
    (hd : ¬(t = "and" ∨ t = "," ∨ t = "")) (hn : contains_digits t = false) :
    byline_loop (t :: "" :: ts) [] [] = t :: byline_loop ts [] [] ∧
    byline_loop [t] [] [] = [] := by
  constructor
  · show byline_loop (t :: "" :: ts) [] [] = t :: byline_loop ts [] []
    rw [byline_loop, if_neg hd, if_neg (by simp [hn])]
    rw [byline_loop, if_pos (by simp), if_pos (by simp)]
    rw [show (([] : List String) ++ [String.intercalate " " ([] ++ [t])]) = [t] from rfl]
    have h3 := byline_loop_append ts [t] [] []
    rw [List.append_nil] at h3
    rw [h3]
    rfl
  · rw [byline_loop, if_neg hd, if_neg (by simp [hn])]
    rw [byline_loop]
    simp

/-- Witness for C8's amended statement at a concrete token list. -/
theorem c8_token_grouping_witness :
    byline_loop ["John", "", "Mary", "Smith"] [] []
      = "John" :: byline_loop ["Mary", "Smith"] [] [] ∧
    byline_loop ["John"] [] [] = [] :=
  c8_token_grouping "John" ["Mary", "Smith"] (by decide) (by decide)

/-! ### Deduplication lemmas for C3 -/

theorem isPySpace_pyLowerChar (c : Char) :
    isPySpace (pyLowerChar c) = isPySpace c := by
  unfold pyLowerChar
  split <;> rfl

theorem dropWhile_map_pyLower (l : List Char) :
    (l.map pyLowerChar).dropWhile isPySpace
      = (l.dropWhile isPySpace).map pyLowerChar := by
  induction l with
  | nil => rfl
  | cons c t ih =>
    simp only [List.map_cons, List.dropWhile_cons, isPySpace_pyLowerChar]
    by_cases h : isPySpace c = true
    · simp [h, ih]
    · simp [h]

theorem pyStripL_map_pyLower (l : List Char) :
    pyStripL (l.map pyLowerChar) = (pyStripL l).map pyLowerChar := by
  unfold pyStripL
  rw [dropWhile_map_pyLower, ← List.map_reverse, dropWhile_map_pyLower,
    ← List.map_reverse]

/-- Ordered-dict lookup (used only in the specification of
`uniqify_list`'s stored values). -/
def alookup : List (String × String) → String → Option String
  | [], _ => none
  | p :: ps, k => if p.1 = k then some p.2 else alookup ps k

/-- Keep the first occurrence of every element, preserving order (the
specification of first-seen key order). -/
def dedupFirst (ks : List String) : List String :=
  ks.foldl (fun acc k => if k ∈ acc then acc else acc ++ [k]) []

theorem head_dropWhile_false (p : Char → Bool) :
    ∀ (l : List Char) (x : Char) (t : List Char),
      l.dropWhile p = x :: t → p x = false := by
  intro l
  induction l with
  | nil => intro x t h; simp at h
  | cons c r ih =>
    intro x t h
    rw [List.dropWhile_cons] at h
    by_cases hc : p c = true
    · rw [if_pos hc] at h
      exact ih x t h
    · rw [if_neg hc] at h
      cases h
      exact Bool.eq_false_iff.mpr hc

theorem dropWhile_idem (p : Char → Bool) (l : List Char) :
    (l.dropWhile p).dropWhile p = l.dropWhile p := by
  cases h : l.dropWhile p with
  | nil => rfl
  | cons x t =>
    rw [List.dropWhile_cons, if_neg (by rw [head_dropWhile_false p l x t h]; simp)]

theorem pyStripL_prefix_dropWhile (l : List Char) :
    pyStripL l <+: l.dropWhile isPySpace := by
  unfold pyStripL
  obtain ⟨pre, hpre⟩ :=
    List.dropWhile_suffix (l := (l.dropWhile isPySpace).reverse) (p := isPySpace)
  exact ⟨pre.reverse, by rw [← List.reverse_append, hpre, List.reverse_reverse]⟩

theorem dropWhile_pyStripL (l : List Char) :
    (pyStripL l).dropWhile isPySpace = pyStripL l := by
  cases h : pyStripL l with
  | nil => rfl
  | cons x t =>
    obtain ⟨rest, hrest⟩ := pyStripL_prefix_dropWhile l
    rw [h] at hrest
    have hx : isPySpace x = false := by
      apply head_dropWhile_false isPySpace l x (t ++ rest)
      rw [← hrest]
      exact (List.cons_append x t rest).symm
    rw [List.dropWhile_cons, if_neg (by rw [hx]; simp)]

theorem pyStripL_idem (l : List Char) :
    pyStripL (pyStripL l) = pyStripL l := by
  conv_lhs => rw [pyStripL]
  rw [dropWhile_pyStripL]
  have h2 : (pyStripL l).reverse.dropWhile isPySpace = (pyStripL l).reverse := by
    unfold pyStripL
    rw [List.reverse_reverse]
    exact dropWhile_idem isPySpace _
  rw [h2, List.reverse_reverse]

theorem authorKey_pyStrip (s : String) : authorKey (pyStrip s) = authorKey s := by
  show String.mk (pyStripL ((pyStripL s.toList).map pyLowerChar))
    = String.mk (pyStripL (s.toList.map pyLowerChar))
  rw [← pyStripL_map_pyLower, pyStripL_idem]

theorem mapCongrMem {α β : Type} (f g : α → β) :
    ∀ (l : List α), (∀ a ∈ l, f a = g a) → l.map f = l.map g := by
  intro l
  induction l with
  | nil => intro _; rfl
  | cons a t ih =>
    intro h
    simp only [List.map_cons]
    rw [h a (List.mem_cons_self a t), ih (fun x hx => h x (List.mem_cons_of_mem a hx))]

theorem odInsert_keys (k v : String) :
    ∀ d : List (String × String),
      (odInsert d k v).map Prod.fst
        = if k ∈ d.map Prod.fst then d.map Prod.fst
          else d.map Prod.fst ++ [k] := by
  intro d
  induction d with
  | nil => simp [odInsert]
  | cons p ps ih =>
    by_cases hp : p.1 = k
    · simp only [odInsert, if_pos hp, List.map_cons]
      rw [if_pos (by rw [hp]; exact List.mem_cons_self _ _)]
    · simp only [odInsert, if_neg hp, List.map_cons, ih]
      by_cases hm : k ∈ ps.map Prod.fst
      · rw [if_pos hm, if_pos (List.mem_cons_of_mem _ hm)]
      · rw [if_neg hm, if_neg (by
          intro hc
          rcases List.mem_cons.mp hc with hc | hc
          · exact hp hc.symm
          · exact hm hc)]
        rfl

theorem odInsert_keys_nodup (k v : String) (d : List (String × String))
    (h : (d.map Prod.fst).Nodup) : ((odInsert d k v).map Prod.fst).Nodup := by
  rw [odInsert_keys]
  by_cases hm : k ∈ d.map Prod.fst
  · rw [if_pos hm]; exact h
  · rw [if_neg hm]
    rw [List.nodup_append]
    exact ⟨h, List.nodup_singleton k, by simpa using hm⟩

theorem odInsert_inv (k v : String) (hkv : k = authorKey v) :
    ∀ d : List (String × String), (∀ p ∈ d, p.1 = authorKey p.2) →
      ∀ p ∈ odInsert d k v, p.1 = authorKey p.2 := by
  intro d
  induction d with
  | nil =>
    intro _ p hp
    rw [List.mem_singleton.mp hp]
    exact hkv
  | cons q ps ih =>
    intro hinv p hp
    by_cases hq : q.1 = k
    · rw [odInsert, if_pos hq] at hp
      rcases List.mem_cons.mp hp with hp | hp
      · rw [hp]
        show q.1 = authorKey v
        rw [hq]; exact hkv
      · exact hinv p (List.mem_cons_of_mem q hp)
    · rw [odInsert, if_neg hq] at hp
      rcases List.mem_cons.mp hp with hp | hp
      · rw [hp]; exact hinv q (List.mem_cons_self q ps)
      · exact ih (fun r hr => hinv r (List.mem_cons_of_mem q hr)) p hp

theorem alookup_odInsert_self (k v : String) :
    ∀ d : List (String × String), alookup (odInsert d k v) k = some v := by
  intro d
  induction d with
  | nil => simp [odInsert, alookup]
  | cons p ps ih =>
    by_cases hp : p.1 = k
    · rw [odInsert, if_pos hp, alookup, if_pos hp]
    · rw [odInsert, if_neg hp, alookup, if_neg hp]
      exact ih

theorem alookup_odInsert_ne (k v k' : String) (h : k' ≠ k) :
    ∀ d : List (String × String), alookup (odInsert d k v) k' = alookup d k' := by
  intro d
  induction d with
  | nil => simp [odInsert, alookup, Ne.symm h]
  | cons p ps ih =>
    by_cases hp : p.1 = k
    · rw [odInsert, if_pos hp, alookup, alookup]
      rw [if_neg (by rw [hp]; intro hc; exact h hc.symm),
        if_neg (by rw [hp]; intro hc; exact h hc.symm)]
    · rw [odInsert, if_neg hp, alookup, alookup]
      by_cases hpk : p.1 = k'
      · rw [if_pos hpk, if_pos hpk]
      · rw [if_neg hpk, if_neg hpk]
        exact ih

theorem alookup_mem (d : List (String × String)) :
    ∀ p ∈ d, (d.map Prod.fst).Nodup → alookup d p.1 = some p.2 := by
  induction d with
  | nil => intro p hp; simp at hp
  | cons q ps ih =>
    intro p hp hnd
    rcases List.mem_cons.mp hp with hp | hp
    · rw [hp, alookup, if_pos rfl]
    · rw [alookup]
      have hne : q.1 ≠ p.1 := by
        intro hc
        rw [List.map_cons, List.nodup_cons] at hnd
        exact hnd.1 (hc ▸ List.mem_map_of_mem Prod.fst hp)
      rw [if_neg hne]
      exact ih p hp (by
        rw [List.map_cons, List.nodup_cons] at hnd
        exact hnd.2)

theorem getLast?_cons_eq {α : Type} (a : α) (l : List α) :
    (a :: l).getLast? = some (match l.getLast? with
                              | some x => x
                              | none => a) := by
  induction l generalizing a with
  | nil => rfl
  | cons b m ih =>
    rw [show (a :: b :: m).getLast? = (b :: m).getLast? from rfl, ih]

theorem foldl_authorStep_keys :
    ∀ (lst : List String) (d : List (String × String)),
      (lst.foldl authorStep d).map Prod.fst
        = (lst.map authorKey).foldl
            (fun acc k => if k ∈ acc then acc else acc ++ [k])
            (d.map Prod.fst) := by
  intro lst
  induction lst with
  | nil => intro d; rfl
  | cons a t ih =>
    intro d
    simp only [List.foldl_cons, List.map_cons]
    rw [ih (authorStep d a)]
    show _ = (t.map authorKey).foldl _
      (if authorKey a ∈ d.map Prod.fst then d.map Prod.fst
       else d.map Prod.fst ++ [authorKey a])
    rw [show (authorStep d a).map Prod.fst
        = if authorKey a ∈ d.map Prod.fst then d.map Prod.fst
          else d.map Prod.fst ++ [authorKey a] from odInsert_keys _ _ d]

theorem dedupFold_nodup :
    ∀ (ks : List String) (acc : List String), acc.Nodup →
      (ks.foldl (fun acc k => if k ∈ acc then acc else acc ++ [k]) acc).Nodup := by
  intro ks
  induction ks with
  | nil => intro acc h; exact h
  | cons k t ih =>
    intro acc h
    simp only [List.foldl_cons]
    by_cases hm : k ∈ acc
    · rw [if_pos hm]; exact ih acc h
    · rw [if_neg hm]
      exact ih (acc ++ [k]) (by
        rw [List.nodup_append]
        exact ⟨h, List.nodup_singleton k, by simpa using hm⟩)

theorem foldl_authorStep_nodup (lst : List String) :
    ((lst.foldl authorStep []).map Prod.fst).Nodup := by
  rw [foldl_authorStep_keys lst []]
  exact dedupFold_nodup (lst.map authorKey) [] List.nodup_nil

theorem foldl_authorStep_inv :
    ∀ (lst : List String) (d : List (String × String)),
      (∀ p ∈ d, p.1 = authorKey p.2) →
      ∀ p ∈ lst.foldl authorStep d, p.1 = authorKey p.2 := by
  intro lst
  induction lst with
  | nil => intro d h; exact h
  | cons a t ih =>
    intro d h
    simp only [List.foldl_cons]
    apply ih
    apply odInsert_inv (authorKey a) (pyStrip a)
    · rw [authorKey_pyStrip]
    · exact h

theorem foldl_authorStep_lookup :
    ∀ (lst : List String) (d : List (String × String)) (k : String),
      alookup (lst.foldl authorStep d) k
        = match (lst.filter (fun y => authorKey y = k)).getLast? with
          | some x => some (pyStrip x)
          | none => alookup d k := by
  intro lst
  induction lst with
  | nil => intro d k; rfl
  | cons a t ih =>
    intro d k
    simp only [List.foldl_cons]
    rw [ih (authorStep d a) k]
    by_cases ha : authorKey a = k
    · rw [List.filter_cons, if_pos (by simpa using ha)]
      rw [getLast?_cons_eq]
      cases ht : (t.filter (fun y => authorKey y = k)).getLast? with
      | some x => rfl
      | none =>
        show alookup (authorStep d a) k = some (pyStrip a)
        unfold authorStep
        rw [ha]
        exact alookup_odInsert_self k (pyStrip a) d
    · rw [List.filter_cons, if_neg (by simpa using ha)]
      cases ht : (t.filter (fun y => authorKey y = k)).getLast? with
      | some x => rfl
      | none =>
        show alookup (authorStep d a) k = alookup d k
        unfold authorStep
        exact alookup_odInsert_ne (authorKey a) (pyStrip a) k
          (fun hc => ha hc.symm) d

/-- Counterexample to C3 as stated: the same author appearing twice with
different casing keeps the casing of the LAST occurrence, not the first
(`seen[key] = item.strip()` overwrites the stored value on duplicate
keys). -/
theorem c3_last_casing_counterexample :
    get_authors (fun s => s) ["John Smith", "JOHN SMITH"] = ["JOHN SMITH"] ∧
    get_authors (fun s => s) ["John Smith", "JOHN SMITH"] ≠ ["John Smith"] := by
  refine ⟨by decide, by decide⟩

/-- C3 (amended): for every stopword filter and every input, the author
list of `get_authors` contains no two entries equal under
case-insensitive comparison after trimming; the entries appear in
first-seen order of their deduplication keys (the key sequence is an
order-preserving sublist of the first-occurrence key order of the raw
candidates); and each retained entry is the whitespace-trimmed form of
the LAST raw candidate with its key — not the first. -/
theorem c3_authors_dedup (stopF : String → String) (contents : List String) :
    ((get_authors stopF contents).Pairwise
      fun a b => authorKey a ≠ authorKey b) ∧
    ((get_authors stopF contents).map authorKey).Sublist
      (dedupFirst ((rawAuthors stopF contents).map authorKey)) ∧
    (∀ v ∈ get_authors stopF contents,
      (((rawAuthors stopF contents).filter
        (fun y => authorKey y = authorKey v)).getLast?).map pyStrip = some v) := by
  have hseen : get_authors stopF contents
      = (((rawAuthors stopF contents).foldl authorStep []).filter
          (fun p => p.1 ≠ "")).map Prod.snd := rfl
  set raw := rawAuthors stopF contents with hraw
  set seen := raw.foldl authorStep [] with hseendef
  have hnodup : (seen.map Prod.fst).Nodup := foldl_authorStep_nodup raw
  have hinv : ∀ p ∈ seen, p.1 = authorKey p.2 :=
    foldl_authorStep_inv raw [] (fun p hp => absurd hp (List.not_mem_nil p))
  have hfilterinv : ∀ p ∈ seen.filter (fun p => p.1 ≠ ""), p.1 = authorKey p.2 :=
    fun p hp => hinv p (List.mem_of_mem_filter hp)
  refine ⟨?_, ?_, ?_⟩
  · rw [hseen]
    rw [List.pairwise_map]
    have h1 : seen.Pairwise (fun p q => p.1 ≠ q.1) :=
      (List.pairwise_map).mp hnodup
    have h2 : (seen.filter (fun p => p.1 ≠ "")).Pairwise (fun p q => p.1 ≠ q.1) :=
      h1.sublist (List.filter_sublist seen)
    exact h2.imp_of_mem (by
      intro p q hp hq hne
      rw [← hfilterinv p hp, ← hfilterinv q hq]
      exact hne)
  · rw [hseen, List.map_map]
    have h1 : (seen.filter (fun p => p.1 ≠ "")).map (authorKey ∘ Prod.snd)
        = (seen.filter (fun p => p.1 ≠ "")).map Prod.fst := by
      apply mapCongrMem
      intro p hp
      exact (hfilterinv p hp).symm
    rw [h1]
    have h2 : ((seen.filter (fun p => p.1 ≠ "")).map Prod.fst).Sublist
        (seen.map Prod.fst) :=
      (List.filter_sublist seen).map Prod.fst
    rw [foldl_authorStep_keys raw []] at h2
    exact h2
  · intro v hv
    rw [hseen] at hv
    obtain ⟨p, hpmem, hpv⟩ := List.mem_map.mp hv
    have hpseen : p ∈ seen := List.mem_of_mem_filter hpmem
    have hkey : p.1 = authorKey v := by
      rw [← hpv]; exact hinv p hpseen
    have hl : alookup seen p.1 = some p.2 := alookup_mem seen p hpseen hnodup
    rw [foldl_authorStep_lookup raw [] p.1] at hl
    rw [hkey] at hl
    cases hlast : (raw.filter (fun y => authorKey y = authorKey v)).getLast? with
    | none =>
      rw [hlast] at hl
      have hx : (none : Option String) = some p.2 := hl
      exact Option.noConfusion hx
    | some x =>
      rw [hlast] at hl
      show some (pyStrip x) = some v
      rw [show pyStrip x = p.2 from Option.some.inj hl, hpv]

/-- Witness for C3's amended statement on the concrete duplicate-casing
input. -/
theorem c3_authors_dedup_witness :
    "JOHN SMITH" ∈ get_authors (fun s => s) ["John Smith", "JOHN SMITH"] ∧
    ((((rawAuthors (fun s => s) ["John Smith", "JOHN SMITH"]).filter
      (fun y => authorKey y = authorKey "JOHN SMITH")).getLast?).map pyStrip
      = some "JOHN SMITH") :=
  ⟨by decide,
   (c3_authors_dedup (fun s => s) ["John Smith", "JOHN SMITH"]).2.2
     "JOHN SMITH" (by decide)⟩

end Newspaper
